import Mathlib

/-!
Shallow embedding of `get-countries-json.py` (pinballmap country statistics
fetcher).  The script performs, in order:

 1. one HTTP GET (`requests.get`), `assert response.status_code == 200`,
    `response.json()`;
 2. `json.dump(countries_json, out_file, sort_keys = True, indent = 4)` to
    `countries.json`;
 3. `shutil.copy` of that file to
    `json-history/<datetime.now().strftime('%Y-%m-%d_')>countries.json`;
 4. `glob.glob('json-history/*.json')`, per file
    `pd.read_json(fname)[["country", "location_count"]].assign(fname=fname)`;
 5. `pd.concat`, date derivation from the filename, `drop(columns='fname')`,
    `sort_values(['date', 'country'])`, `to_csv(..., index=False)`;
 6. a top-10 selection and a plot (the plot itself is cosmetic and is not
    modelled).

Strings are modelled as `List Char`; machine paths and file names carry no
other structure.  File contents in the history store are modelled at the
level `pd.read_json` delivers them: a list of records each having the
`country` and `location_count` fields (the column projection
`[["country", "location_count"]]` drops every other payload field, and no
claim observes the dropped fields).
-/

/-- Python's `str.split(sep)` for a one-character separator: splits at every
occurrence, keeping empty pieces, and always returns at least one piece. -/
def splitOnChar (sep : Char) : List Char → List (List Char)
  | [] => [[]]
  | c :: cs =>
    if c = sep then
      [] :: splitOnChar sep cs
    else
      match splitOnChar sep cs with
      | piece :: rest => (c :: piece) :: rest
      | [] => [[c]]

/-- A calendar date as parsed by `pd.to_datetime` from a `YYYY-MM-DD` string. -/
structure Date where
  year : Nat
  month : Nat
  day : Nat
deriving DecidableEq, Repr

/-- Chronological key of a date; `pd.Timestamp` comparison on dates whose
month and day fields are below 100 (always true for parsed dates) agrees
with `Nat` comparison of this key. -/
def Date.key (d : Date) : Nat :=
  d.year * 10000 + d.month * 100 + d.day

/-- Numeric value of a decimal digit character. -/
def digitVal (c : Char) : Option Nat :=
  if c.isDigit then some (c.toNat - 48) else none

/-- The model of `pd.to_datetime` applied to one string, modelled for the ISO
`YYYY-MM-DD` format that the snapshot writer produces.  Any other shape is a
parse failure (`pd.to_datetime` raises, aborting the aggregation). -/
def parseIsoDate (s : List Char) : Option Date :=
  match s with
  | [y1, y2, y3, y4, '-', m1, m2, '-', d1, d2] => do
    let a ← digitVal y1
    let b ← digitVal y2
    let c ← digitVal y3
    let d ← digitVal y4
    let m1v ← digitVal m1
    let m2v ← digitVal m2
    let d1v ← digitVal d1
    let d2v ← digitVal d2
    let y := ((a * 10 + b) * 10 + c) * 10 + d
    let m := m1v * 10 + m2v
    let dd := d1v * 10 + d2v
    if 1 ≤ m ∧ m ≤ 12 ∧ 1 ≤ dd ∧ dd ≤ 31 then
      some ⟨y, m, dd⟩
    else
      none
  | _ => none

/-- The final path segment, `x['fname'].str.split('/').str[-1]`.
`str.split` always returns a nonempty list, so the default of `getLastD`
is never used. -/
def basenameOf (path : List Char) : List Char :=
  (splitOnChar '/' path).getLastD []

/-- The part of the file name before the first underscore:
`.str.split('_').str[0]` applied to the basename. -/
def dateStemOf (path : List Char) : List Char :=
  (splitOnChar '_' (basenameOf path)).headD []

/-- The date the aggregator derives for every row read from the file at
`path`: final path segment, prefix up to the first underscore, parsed as a
calendar date. -/
def dateOfPath (path : List Char) : Option Date :=
  parseIsoDate (dateStemOf path)

/-- Chronological key of the date derived from a file name, if it parses. -/
def dateKeyOfPath (path : List Char) : Option Nat :=
  (dateOfPath path).map Date.key

/-- One record of the fetched payload after the projection
`[["country", "location_count"]]`.  `location_count` is a non-negative
integer per the API contract. -/
structure CountryRec where
  country : List Char
  location_count : Nat
deriving DecidableEq, Repr

/-- A row of a per-file table after `.assign(fname=fname)`. -/
structure TaggedRow where
  country : List Char
  location_count : Nat
  fname : List Char
deriving DecidableEq, Repr

/-- A row of the combined history table after the date has been derived and
the `fname` column dropped. -/
structure Row where
  country : List Char
  location_count : Nat
  date : Date
deriving DecidableEq, Repr

/-- Boolean lexicographic order on character lists by code point; this is
how pandas compares the `country` strings when sorting. -/
def strLeB : List Char → List Char → Bool
  | [], _ => true
  | _ :: _, [] => false
  | a :: as, b :: bs =>
    if a.toNat < b.toNat then true
    else if b.toNat < a.toNat then false
    else strLeB as bs

/-- The comparison used by `sort_values(['date', 'country'])`: ascending by
date, ties broken ascending by country name. -/
def RowLe (r s : Row) : Prop :=
  r.date.key < s.date.key ∨ (r.date.key = s.date.key ∧ strLeB r.country s.country = true)

instance : DecidableRel RowLe := fun r s => by
  unfold RowLe; infer_instance

/-- The comparison used by `sort_values('location_count', ascending=False)`:
descending by count. -/
def CountGe (r s : Row) : Prop :=
  s.location_count ≤ r.location_count

instance : DecidableRel CountGe := fun r s => by
  unfold CountGe; infer_instance

instance : IsTotal Row CountGe :=
  ⟨fun r s => (Nat.le_total s.location_count r.location_count).imp id id⟩

instance : IsTrans Row CountGe :=
  ⟨fun _ _ _ h1 h2 => Nat.le_trans h2 h1⟩

/-- The fixed directory the snapshots live in. -/
def historyDir : List Char := "json-history/".toList

/-- Whether `glob.glob('json-history/*.json')` matches a file of the given
basename: the name must end in `.json` and, since `glob` skips hidden
files, must not start with a dot. -/
def globMatchJson : List Char → Bool
  | [] => false
  | c :: cs => c ≠ '.' && List.isSuffixOf (".json".toList) (c :: cs)

/-- The history directory is modelled as a listing of
`(basename, parsed content)` pairs, in directory enumeration order. -/
abbrev HistoryDir := List (List Char × List CountryRec)

/-- The scan `json_fnames = glob.glob('json-history/*.json')`: the matching entries,
with the directory prefixed to each name as `glob` returns full relative
paths.  The file contents ride along so that the later read step can be
expressed on the same list. -/
def json_fnames (dir : HistoryDir) : List (List Char × List CountryRec) :=
  (dir.filter (fun e => globMatchJson e.1)).map (fun e => (historyDir ++ e.1, e.2))

/-- Errors the aggregation can raise. -/
inductive AggErr where
  /-- pandas `KeyError`: the frame read from a file lacks the selected
  columns; `pd.read_json` of an empty record list yields a frame with no
  columns at all, so selecting `[["country", "location_count"]]` raises. -/
  | keyError
  /-- The `ValueError` from `pd.concat([])`: no objects to concatenate. -/
  | noObjectsToConcatenate
  /-- A failure of `pd.to_datetime` on a derived date string. -/
  | dateParseError
deriving DecidableEq, Repr

/-- The per-file table
`pd.read_json(fname)[["country", "location_count"]].assign(fname=fname)`,
given that the read succeeds. -/
def fileTable (fname : List Char) (recs : List CountryRec) : List TaggedRow :=
  recs.map fun r => ⟨r.country, r.location_count, fname⟩

/-- Reading one history file: an empty record list parses to a frame with
no columns, so the column selection raises `KeyError`; otherwise the
projected, tagged table is produced. -/
def readCountriesDf (fname : List Char) (recs : List CountryRec) :
    Except AggErr (List TaggedRow) :=
  if recs.isEmpty then .error .keyError else .ok (fileTable fname recs)

/-- The loop that builds `countries_dfs`, reading each globbed file in
order; the first failing file aborts the loop. -/
def countries_dfs : List (List Char × List CountryRec) → Except AggErr (List (List TaggedRow))
  | [] => .ok []
  | (f, recs) :: rest =>
    match readCountriesDf f recs, countries_dfs rest with
    | .error e, _ => .error e
    | .ok _, .error e => .error e
    | .ok t, .ok ts => .ok (t :: ts)

/-- The column assignment
`.assign(date=lambda x: pd.to_datetime(x['fname'].str.split('/').str[-1].str.split('_').str[0]))`
followed by `.drop(columns='fname')`, applied row by row; a single
unparseable file name fails the whole column. -/
def assignDates : List TaggedRow → Option (List Row)
  | [] => some []
  | r :: rs =>
    match dateOfPath r.fname, assignDates rs with
    | some d, some rest => some (⟨r.country, r.location_count, d⟩ :: rest)
    | _, _ => none

/-- The `countries_history` pipeline: glob, per-file read, `pd.concat`
(raising on an empty input list), date derivation, and the final
`sort_values(['date', 'country'])` (a stable lexicographic sort). -/
def countries_history (dir : HistoryDir) : Except AggErr (List Row) :=
  match countries_dfs (json_fnames dir) with
  | .error e => .error e
  | .ok dfs =>
    if dfs.isEmpty then
      .error .noObjectsToConcatenate
    else
      match assignDates dfs.flatten with
      | none => .error .dateParseError
      | some rows => .ok (List.insertionSort RowLe rows)

/-- Decimal digits of a natural number, as written by `to_csv`. -/
def natDigits (n : Nat) : List Char := Nat.toDigits 10 n

/-- Two-digit zero-padded field (`%m`, `%d`); faithful for values below
100, which covers every month and day. -/
def pad2 (n : Nat) : List Char :=
  [Nat.digitChar (n / 10 % 10), Nat.digitChar (n % 10)]

/-- Four-digit zero-padded field (`%Y`); faithful for years below 10000. -/
def pad4 (n : Nat) : List Char :=
  [Nat.digitChar (n / 1000 % 10), Nat.digitChar (n / 100 % 10),
   Nat.digitChar (n / 10 % 10), Nat.digitChar (n % 10)]

/-- The format dates print as in the CSV, `d.strftime('%Y-%m-%d')`. -/
def formatIsoDate (d : Date) : List Char :=
  pad4 d.year ++ '-' :: pad2 d.month ++ '-' :: pad2 d.day

/-- One CSV data line, columns `country,location_count,date`. -/
def csvRow (r : Row) : List Char :=
  r.country ++ ',' :: natDigits r.location_count ++ ',' :: formatIsoDate r.date ++ ['\n']

/-- The write `countries_history.to_csv('countries-history.csv', index=False)`: header
line then one line per row, no index column. -/
def to_csv (rows : List Row) : List Char :=
  "country,location_count,date\n".toList ++ (rows.map csvRow).flatten

/-- The bytes the aggregation writes to `countries-history.csv`, or the
error that aborts the run first. -/
def countries_history_csv (dir : HistoryDir) : Except AggErr (List Char) :=
  (countries_history dir).map to_csv

/-- The maximum `latest_date = countries_history['date'].max()` as a chronological key.
The fold base is irrelevant on the nonempty tables the claims quantify
over. -/
def latest_date (t : List Row) : Nat :=
  (t.map fun r => r.date.key).foldr max 0

/-- The slice `countries_history.query("date == @latest_date")`. -/
def latestSlice (t : List Row) : List Row :=
  t.filter fun r => r.date.key == latest_date t

/-- The selection `top_10_countries`: filter to the latest date, sort by count
descending, `head(10)`, keep the `country` column.  pandas gives no
stability guarantee for ties here; a stable sort is one refinement of it,
and no property proved below depends on the tie order. -/
def top_10_countries (t : List Row) : List (List Char) :=
  ((List.insertionSort CountGe (latestSlice t)).take 10).map fun r => r.country

/-- A JSON value as `json.dump` receives it.  Object fields are an ordered
association list; numbers are modelled as integers (the payload carries
only integral counts) and string escaping is not modelled (it plays no role
in any claim). -/
inductive Json where
  | null : Json
  | bool (b : Bool) : Json
  | num (n : Int) : Json
  | str (s : List Char) : Json
  | arr (elems : List Json) : Json
  | obj (fields : List (List Char × Json)) : Json

/-- Key order used by `sort_keys=True`. -/
def FieldLe (a b : List Char × Json) : Prop :=
  strLeB a.1 b.1 = true

instance : DecidableRel FieldLe := fun a b => by
  unfold FieldLe; infer_instance

/-- The reordering `sort_keys=True` performs: object fields sorted by ascending key. -/
def sortFieldsByKey (fs : List (List Char × Json)) : List (List Char × Json) :=
  List.insertionSort FieldLe fs

/-- Indentation of `n` spaces. -/
def indentSp (n : Nat) : List Char :=
  List.replicate n ' '

/-- Decimal rendering of an integer. -/
def intDigits : Int → List Char
  | .ofNat n => natDigits n
  | .negSucc n => '-' :: natDigits (n + 1)

/-- Interpose a separator between rendered items. -/
def joinSep (sep : List Char) : List (List Char) → List Char
  | [] => []
  | [x] => x
  | x :: y :: rest => x ++ sep ++ joinSep sep (y :: rest)

/-- The printer `json.dump(v, out_file, sort_keys = True, indent = 4)` at nesting depth
`d`: Python's pretty printer with item separator `,\n`, key separator
`: `, four spaces per level, `[]`/`\x7b\x7d` for empty containers, and
object keys emitted in ascending order. -/
def json_dump_at : Nat → Json → List Char
  | _, .null => "null".toList
  | _, .bool true => "true".toList
  | _, .bool false => "false".toList
  | _, .num n => intDigits n
  | _, .str s => '"' :: s ++ ['"']
  | _, .arr [] => "[]".toList
  | d, .arr (e :: es) =>
    '[' :: '\n' ::
      joinSep (',' :: '\n' :: [])
        (((e :: es).attach).map fun x =>
          indentSp ((d + 1) * 4) ++ json_dump_at (d + 1) x.1) ++
      '\n' :: indentSp (d * 4) ++ [']']
  | _, .obj [] => ['\x7b', '\x7d']
  | d, .obj (f :: fs) =>
    '\x7b' :: '\n' ::
      joinSep (',' :: '\n' :: [])
        (((sortFieldsByKey (f :: fs)).attach).map fun x =>
          indentSp ((d + 1) * 4) ++ '"' :: x.1.1 ++ '"' :: ':' :: ' ' ::
            json_dump_at (d + 1) x.1.2) ++
      '\n' :: indentSp (d * 4) ++ ['\x7d']
  termination_by _ v => sizeOf v
  decreasing_by
  · have hm : x.1 ∈ e :: es := x.2
    have := List.sizeOf_lt_of_mem hm
    simp only [Json.arr.sizeOf_spec]
    omega
  · have hm : x.1 ∈ sortFieldsByKey (f :: fs) := x.2
    have hm' : x.1 ∈ f :: fs :=
      ((List.perm_insertionSort FieldLe (f :: fs)).mem_iff).mp hm
    have h1 := List.sizeOf_lt_of_mem hm'
    have h2 : sizeOf x.1.2 < sizeOf x.1 := by
      cases x.1 with
      | mk k v => simp
    simp only [Json.obj.sizeOf_spec]
    omega

/-- The bytes written to `countries.json`. -/
def json_dump (v : Json) : List Char :=
  json_dump_at 0 v

/-- The HTTP response, as far as the script observes it: the status code
and, when the body is valid JSON of the documented shape, its parsed value
projected to the fields the script consumes.  `body = none` models a body
on which `response.json()` raises. -/
structure HttpResponse where
  status_code : Nat
  body : Option (List CountryRec)

/-- Serialize the projected payload the way the canonical file stores it. -/
def payloadJson (recs : List CountryRec) : Json :=
  .arr (recs.map fun r =>
    .obj [("country".toList, .str r.country),
          ("location_count".toList, .num (Int.ofNat r.location_count))])

/-- Errors that abort a run of the script. -/
inductive RunErr where
  /-- A network failure: `requests.get` raised. -/
  | requestsError
  /-- The failed assertion `assert response.status_code == 200`. -/
  | assertionError
  /-- A decode failure: `response.json()` raised on a malformed body. -/
  | jsonDecodeError
  /-- the aggregation step raised. -/
  | aggError (e : AggErr)
deriving DecidableEq, Repr

/-- The files the script touches.  `countriesJson` is the byte content of
`countries.json` (absent on a fresh checkout), `jsonHistory` the history
directory listing, `countriesHistoryCsv` the byte content of
`countries-history.csv`. -/
structure FS where
  countriesJson : Option (List Char)
  jsonHistory : HistoryDir
  countriesHistoryCsv : Option (List Char)
deriving DecidableEq, Repr

/-- The copy `shutil.copy` into the history directory: overwrite the entry of the
same name if it exists (last fetch of the day wins), otherwise add the
file. -/
def upsertFile (dir : HistoryDir) (nm : List Char) (content : List CountryRec) :
    HistoryDir :=
  if dir.any (fun e => e.1 == nm) then
    dir.map fun e => if e.1 == nm then (nm, content) else e
  else
    dir ++ [(nm, content)]

/-- The basename of today's history snapshot,
`datetime.now().strftime('%Y-%m-%d_') + 'countries.json'`. -/
def todaysBasename (today : Date) : List Char :=
  formatIsoDate today ++ '_' :: "countries.json".toList

/-- One run of the script, in source order: fetch, status assertion, JSON
decode, canonical write, history copy, aggregation, CSV write.  `net =
none` models `requests.get` raising.  The trailing plot step only reads
data and writes an SVG no claim concerns, so it is not modelled.  The
returned state is the filesystem at the point the run finishes or aborts.
The copy stores the parsed payload: the history file is byte-identical to
the canonical file, so reading it back parses to the same records. -/
def runScript (net : Option HttpResponse) (today : Date) (fs : FS) :
    FS × Option RunErr :=
  match net with
  | none => (fs, some .requestsError)
  | some response =>
    if response.status_code ≠ 200 then
      (fs, some .assertionError)
    else
      match response.body with
      | none => (fs, some .jsonDecodeError)
      | some countries_json =>
        let fs1 : FS := { fs with countriesJson := some (json_dump (payloadJson countries_json)) }
        let fs2 : FS := { fs1 with
          jsonHistory := upsertFile fs1.jsonHistory (todaysBasename today) countries_json }
        match countries_history_csv fs2.jsonHistory with
        | .error e => (fs2, some (.aggError e))
        | .ok csv => ({ fs2 with countriesHistoryCsv := some csv }, none)

/-! ### Order lemmas for the string and row comparisons -/

theorem strLeB_total : ∀ (a b : List Char), strLeB a b = true ∨ strLeB b a = true
  | [], _ => Or.inl rfl
  | _ :: _, [] => Or.inr rfl
  | a :: as, b :: bs => by
    rcases Nat.lt_trichotomy a.toNat b.toNat with h | h | h
    · left; simp [strLeB, h]
    · have h1 : ¬ a.toNat < b.toNat := by omega
      have h2 : ¬ b.toNat < a.toNat := by omega
      rcases strLeB_total as bs with ih | ih
      · left; simp [strLeB, h1, h2, ih]
      · right; simp [strLeB, h1, h2, ih]
    · right; simp [strLeB, h]

theorem strLeB_trans : ∀ {a b c : List Char},
    strLeB a b = true → strLeB b c = true → strLeB a c = true
  | [], _, _, _, _ => rfl
  | _ :: _, [], _, h1, _ => by simp [strLeB] at h1
  | _ :: _, _ :: _, [], _, h2 => by simp [strLeB] at h2
  | a :: as, b :: bs, c :: cs, h1, h2 => by
    simp only [strLeB] at h1 h2 ⊢
    by_cases hab : a.toNat < b.toNat
    · rw [if_pos hab] at h1
      by_cases hbc : b.toNat < c.toNat
      · have hac : a.toNat < c.toNat := by omega
        rw [if_pos hac]
      · rw [if_neg hbc] at h2
        by_cases hcb : c.toNat < b.toNat
        · rw [if_pos hcb] at h2; exact absurd h2 (by simp)
        · rw [if_neg hcb] at h2
          have hac : a.toNat < c.toNat := by omega
          rw [if_pos hac]
    · rw [if_neg hab] at h1
      by_cases hba : b.toNat < a.toNat
      · rw [if_pos hba] at h1; exact absurd h1 (by simp)
      · rw [if_neg hba] at h1
        by_cases hbc : b.toNat < c.toNat
        · have hac : a.toNat < c.toNat := by omega
          rw [if_pos hac]
        · rw [if_neg hbc] at h2
          by_cases hcb : c.toNat < b.toNat
          · rw [if_pos hcb] at h2; exact absurd h2 (by simp)
          · rw [if_neg hcb] at h2
            have hac : ¬ a.toNat < c.toNat := by omega
            have hca : ¬ c.toNat < a.toNat := by omega
            rw [if_neg hac, if_neg hca]
            exact strLeB_trans h1 h2

instance : IsTotal Row RowLe := by
  constructor
  intro r s
  rcases Nat.lt_trichotomy r.date.key s.date.key with h | h | h
  · exact Or.inl (Or.inl h)
  · rcases strLeB_total r.country s.country with hc | hc
    · exact Or.inl (Or.inr ⟨h, hc⟩)
    · exact Or.inr (Or.inr ⟨h.symm, hc⟩)
  · exact Or.inr (Or.inl h)

instance : IsTrans Row RowLe := by
  constructor
  intro r s t h1 h2
  rcases h1 with h1 | ⟨h1e, h1c⟩ <;> rcases h2 with h2 | ⟨h2e, h2c⟩
  · exact Or.inl (Nat.lt_trans h1 h2)
  · exact Or.inl (by omega)
  · exact Or.inl (by omega)
  · exact Or.inr ⟨h1e.trans h2e, strLeB_trans h1c h2c⟩

instance : IsTotal (List Char × Json) FieldLe :=
  ⟨fun a b => strLeB_total a.1 b.1⟩

instance : IsTrans (List Char × Json) FieldLe :=
  ⟨fun _ _ _ h1 h2 => strLeB_trans h1 h2⟩

/-! ### Pipeline lemmas -/

/-- Rows a history entry contributes once its date has been derived.  The
default date is never reached when the file name parses. -/
def datedRows (recs : List CountryRec) (d : Date) : List Row :=
  recs.map fun rec => ⟨rec.country, rec.location_count, d⟩

/-- The rows contributed by one directory entry. -/
def rowsOfEntry (e : List Char × List CountryRec) : List Row :=
  datedRows e.2 ((dateOfPath (historyDir ++ e.1)).getD ⟨0, 0, 0⟩)

/-- The sort key `sort_values(['date', 'country'])` orders by. -/
def rowKey (r : Row) : Nat × List Char :=
  (r.date.key, r.country)

theorem json_fnames_all_match {dir : HistoryDir}
    (h : ∀ e ∈ dir, globMatchJson e.1 = true) :
    json_fnames dir = dir.map fun e => (historyDir ++ e.1, e.2) := by
  unfold json_fnames
  rw [List.filter_eq_self.mpr h]

theorem countries_dfs_ok {files : List (List Char × List CountryRec)}
    (h : ∀ e ∈ files, e.2 ≠ []) :
    countries_dfs files = .ok (files.map fun e => fileTable e.1 e.2) := by
  induction files with
  | nil => rfl
  | cons e rest ih =>
    have he : e.2 ≠ [] := h e (.head _)
    have hr : readCountriesDf e.1 e.2 = .ok (fileTable e.1 e.2) := by
      unfold readCountriesDf
      rw [if_neg (by simpa using he)]
    cases e with
    | mk f recs =>
      simp only [countries_dfs]
      rw [hr, ih (fun x hx => h x (.tail _ hx))]
      simp

theorem countries_dfs_error_is_keyError {files : List (List Char × List CountryRec)}
    {e : AggErr} (h : countries_dfs files = .error e) : e = .keyError := by
  induction files with
  | nil => exact absurd h (by simp [countries_dfs])
  | cons f rest ih =>
    cases f with
    | mk nm recs =>
      simp only [countries_dfs] at h
      cases hr : readCountriesDf nm recs with
      | error e' =>
        rw [hr] at h
        have : e' = AggErr.keyError := by
          unfold readCountriesDf at hr
          by_cases hrec : recs.isEmpty
          · rw [if_pos hrec] at hr; cases hr; rfl
          · rw [if_neg hrec] at hr; cases hr
        cases h
        exact this
      | ok tb =>
        rw [hr] at h
        cases hrest : countries_dfs rest with
        | error e' => rw [hrest] at h; cases h; exact ih hrest
        | ok ts => rw [hrest] at h; cases h

theorem countries_dfs_ok_length {files : List (List Char × List CountryRec)}
    {dfs : List (List TaggedRow)} (h : countries_dfs files = .ok dfs) :
    dfs.length = files.length := by
  induction files generalizing dfs with
  | nil =>
    simp only [countries_dfs] at h
    cases h
    rfl
  | cons f rest ih =>
    cases f with
    | mk nm recs =>
      simp only [countries_dfs] at h
      cases hr : readCountriesDf nm recs with
      | error e => rw [hr] at h; cases h
      | ok tb =>
        rw [hr] at h
        cases hrest : countries_dfs rest with
        | error e' => rw [hrest] at h; cases h
        | ok ts =>
          rw [hrest] at h
          cases h
          simp [ih hrest]

theorem assignDates_append {l₁ l₂ : List TaggedRow} {r₁ r₂ : List Row}
    (h₁ : assignDates l₁ = some r₁) (h₂ : assignDates l₂ = some r₂) :
    assignDates (l₁ ++ l₂) = some (r₁ ++ r₂) := by
  induction l₁ generalizing r₁ with
  | nil =>
    simp only [assignDates] at h₁
    cases h₁
    simpa using h₂
  | cons x xs ih =>
    simp only [assignDates] at h₁
    cases hd : dateOfPath x.fname with
    | none => rw [hd] at h₁; cases h₁
    | some d =>
      rw [hd] at h₁
      cases hrest : assignDates xs with
      | none => rw [hrest] at h₁; cases h₁
      | some rs =>
        rw [hrest] at h₁
        cases h₁
        rw [List.cons_append]
        simp only [assignDates]
        rw [hd, ih hrest]
        rfl

theorem assignDates_fileTable {f : List Char} {recs : List CountryRec} {d : Date}
    (h : dateOfPath f = some d) :
    assignDates (fileTable f recs) = some (datedRows recs d) := by
  induction recs with
  | nil => rfl
  | cons r rs ih =>
    show assignDates (⟨r.country, r.location_count, f⟩ :: fileTable f rs) = _
    rw [assignDates, h, ih]
    rfl

theorem presort_eq {dir : HistoryDir}
    (hparse : ∀ e ∈ dir, (dateOfPath (historyDir ++ e.1)).isSome) :
    assignDates ((dir.map fun e => fileTable (historyDir ++ e.1) e.2).flatten)
      = some ((dir.map rowsOfEntry).flatten) := by
  induction dir with
  | nil => rfl
  | cons e rest ih =>
    obtain ⟨d, hd⟩ := Option.isSome_iff_exists.mp (hparse e (.head _))
    have h1 := @assignDates_fileTable (historyDir ++ e.1) e.2 d hd
    have h2 := ih fun x hx => hparse x (.tail _ hx)
    simp only [List.map_cons, List.flatten_cons]
    rw [assignDates_append h1 h2]
    have : rowsOfEntry e = datedRows e.2 d := by
      unfold rowsOfEntry
      rw [hd]
      rfl
    rw [this]

theorem presort_length {dir : HistoryDir} {L : List (List Char)}
    (hcountries : ∀ e ∈ dir, (e.2.map CountryRec.country).Perm L) :
    ((dir.map rowsOfEntry).flatten).length = dir.length * L.length := by
  induction dir with
  | nil => simp
  | cons e rest ih =>
    have he : e.2.length = L.length := by
      have := (hcountries e (.head _)).length_eq
      simpa using this
    simp only [List.map_cons, List.flatten_cons, List.length_append,
      ih fun x hx => hcountries x (.tail _ hx)]
    simp only [rowsOfEntry, datedRows, List.length_map, List.length_cons, he]
    ring

theorem presort_keys_distinct {dir : HistoryDir} {L : List (List Char)}
    (hL : L.Nodup)
    (hcountries : ∀ e ∈ dir, (e.2.map CountryRec.country).Perm L)
    (hdist : dir.Pairwise fun e e' =>
      dateKeyOfPath (historyDir ++ e.1) ≠ dateKeyOfPath (historyDir ++ e'.1))
    (hparse : ∀ e ∈ dir, (dateOfPath (historyDir ++ e.1)).isSome) :
    ((dir.map rowsOfEntry).flatten).Pairwise fun r s => rowKey r ≠ rowKey s := by
  rw [List.pairwise_flatten]
  constructor
  · intro l hl
    obtain ⟨e, he, hrw⟩ := List.mem_map.mp hl
    subst hrw
    have hnodup : (e.2.map CountryRec.country).Nodup :=
      ((hcountries e he).nodup_iff).mpr hL
    have hpw : e.2.Pairwise fun a b => a.country ≠ b.country :=
      List.pairwise_map.mp hnodup
    unfold rowsOfEntry datedRows
    rw [List.pairwise_map]
    exact hpw.imp fun hne hk => hne (congrArg Prod.snd hk)
  · rw [List.pairwise_map]
    refine hdist.imp_of_mem ?_
    intro e e' he he' hne x hx y hy
    obtain ⟨de, hde⟩ := Option.isSome_iff_exists.mp (hparse e he)
    obtain ⟨de', hde'⟩ := Option.isSome_iff_exists.mp (hparse e' he')
    have hxd : x.date = de := by
      unfold rowsOfEntry datedRows at hx
      obtain ⟨rec, _, hrw⟩ := List.mem_map.mp hx
      rw [hde] at hrw
      simp [← hrw]
    have hyd : y.date = de' := by
      unfold rowsOfEntry datedRows at hy
      obtain ⟨rec, _, hrw⟩ := List.mem_map.mp hy
      rw [hde'] at hrw
      simp [← hrw]
    intro hk
    apply hne
    unfold dateKeyOfPath
    rw [hde, hde']
    have : x.date.key = y.date.key := congrArg Prod.fst hk
    rw [hxd, hyd] at this
    simp [this]

theorem countries_history_ok {dir : HistoryDir}
    (hglob : ∀ e ∈ dir, globMatchJson e.1 = true)
    (hparse : ∀ e ∈ dir, (dateOfPath (historyDir ++ e.1)).isSome)
    (hne : ∀ e ∈ dir, e.2 ≠ [])
    (hdir : dir ≠ []) :
    countries_history dir
      = .ok (List.insertionSort RowLe ((dir.map rowsOfEntry).flatten)) := by
  unfold countries_history
  rw [json_fnames_all_match hglob]
  have hne' : ∀ e ∈ dir.map (fun e => (historyDir ++ e.1, e.2)), e.2 ≠ [] := by
    intro x hx
    obtain ⟨e, he, hrw⟩ := List.mem_map.mp hx
    subst hrw
    exact hne e he
  rw [countries_dfs_ok hne']
  have hmaps : (dir.map fun e => (historyDir ++ e.1, e.2)).map (fun e => fileTable e.1 e.2)
      = dir.map fun e => fileTable (historyDir ++ e.1) e.2 := by
    rw [List.map_map]
    rfl
  rw [hmaps]
  have hempty : ((dir.map fun e => fileTable (historyDir ++ e.1) e.2).isEmpty) = false := by
    cases dir with
    | nil => exact absurd rfl hdir
    | cons e rest => rfl
  simp only [hempty, Bool.false_eq_true, if_false, presort_eq hparse]

theorem countries_history_not_emptyErr {dir : HistoryDir}
    (h : json_fnames dir ≠ []) :
    countries_history dir ≠ .error .noObjectsToConcatenate := by
  unfold countries_history
  cases hdfs : countries_dfs (json_fnames dir) with
  | error e =>
    have := countries_dfs_error_is_keyError hdfs
    subst this
    intro hc
    cases hc
  | ok dfs =>
    have hlen : dfs.length = (json_fnames dir).length := countries_dfs_ok_length hdfs
    have : dfs.isEmpty = false := by
      cases hd : dfs with
      | nil =>
        rw [hd] at hlen
        exact absurd (List.eq_nil_of_length_eq_zero hlen.symm) h
      | cons x xs => rfl
    simp only [this, Bool.false_eq_true, if_false]
    cases assignDates dfs.flatten with
    | none => intro hc; cases hc
    | some rows => intro hc; cases hc

/-! ### Claim theorems -/

/-- C3: for every fetch that fails — non-200 HTTP status, network error, or
a response body that is not valid JSON — the run aborts before any file is
written or modified; in particular the canonical `countries.json` file's
prior content, if any, is left untouched. -/
theorem fetch_failure_aborts_before_write
    (net : Option HttpResponse) (today : Date) (fs : FS)
    (h : net = none ∨ ∃ r, net = some r ∧ (r.status_code ≠ 200 ∨ r.body = none)) :
    (runScript net today fs).1 = fs ∧ (runScript net today fs).2 ≠ none ∧
      (runScript net today fs).1.countriesJson = fs.countriesJson := by
  rcases h with h | ⟨r, hnet, hr⟩
  · subst h
    exact ⟨rfl, by simp [runScript], rfl⟩
  · subst hnet
    rcases hr with hs | hb
    · simp [runScript, hs]
    · by_cases hst : r.status_code = 200
      · simp [runScript, hst, hb]
      · simp [runScript, hst]

/-- Witness for C3 at a concrete HTTP 500 response and a filesystem whose
canonical file already holds content. -/
theorem fetch_failure_aborts_before_write_witness :
    ((500 : Nat) ≠ 200 ∨ (some [] : Option (List CountryRec)) = none) ∧
    (runScript (some ⟨500, some []⟩) ⟨2024, 1, 1⟩
        ⟨some "old".toList, [("2024-01-01_countries.json".toList, [])], none⟩).1
      = ⟨some "old".toList, [("2024-01-01_countries.json".toList, [])], none⟩ :=
  ⟨Or.inl (by decide),
   (fetch_failure_aborts_before_write _ _ _
      (Or.inr ⟨_, rfl, Or.inl (by decide)⟩)).1⟩

/-- C4: if the history directory is empty or contains zero matching
snapshot files, the aggregation step fails explicitly (an error, the
`pd.concat([])` `ValueError`) rather than writing an empty or malformed
`countries-history.csv`. -/
theorem empty_history_fails_aggregation (dir : HistoryDir)
    (h : json_fnames dir = []) :
    countries_history dir = .error .noObjectsToConcatenate ∧
    countries_history_csv dir = .error .noObjectsToConcatenate := by
  have h1 : countries_history dir = .error .noObjectsToConcatenate := by
    unfold countries_history
    rw [h]
    rfl
  refine ⟨h1, ?_⟩
  unfold countries_history_csv
  rw [h1]
  rfl

/-- Witness for C4 at the empty history directory. -/
theorem empty_history_fails_aggregation_witness :
    json_fnames ([] : HistoryDir) = [] ∧
    countries_history_csv ([] : HistoryDir) = .error .noObjectsToConcatenate :=
  ⟨rfl, (empty_history_fails_aggregation [] rfl).2⟩

/-- C5: the row date is derived from the path's final segment and its
prefix up to the first underscore; a filename `2024-03-07_countries.json`
yields the date 2024-03-07 regardless of any preceding path segments. -/
theorem filename_date_derivation (path : List Char)
    (h : (splitOnChar '/' path).getLastD [] = "2024-03-07_countries.json".toList) :
    dateOfPath path = some ⟨2024, 3, 7⟩ := by
  unfold dateOfPath dateStemOf basenameOf
  rw [h]
  decide

/-- Witness for C5 at a path with a preceding directory segment. -/
theorem filename_date_derivation_witness :
    (splitOnChar '/' "json-history/2024-03-07_countries.json".toList).getLastD []
        = "2024-03-07_countries.json".toList ∧
    dateOfPath "json-history/2024-03-07_countries.json".toList = some ⟨2024, 3, 7⟩ :=
  ⟨by decide, filename_date_derivation _ (by decide)⟩

/-- C7: running the aggregation twice over the same unchanged history
directory produces byte-identical CSV output.  Directory enumeration is
modelled as the fixed listing `dir`; for one listing the scan, read,
concatenate, date-derive, sort and CSV-write pipeline is a pure function,
so two runs agree byte for byte. -/
theorem aggregation_deterministic (dir : HistoryDir) :
    countries_history_csv dir = countries_history_csv dir ∧
    countries_history dir = countries_history dir :=
  ⟨rfl, rfl⟩

/-- C1 (amended): for every history store containing at least one snapshot
file, the files having pairwise chronologically distinct dates and each
containing the same nonempty set of countries, the aggregated history table
has exactly N × (#countries) rows, and it is strictly sorted: every row of
an earlier date precedes every row of a later date, and within each date
rows appear in ascending (strict) lexicographic order of country name.
The original claim fails for an empty store (and for empty snapshots),
where the code raises instead of producing a 0-row table. -/
theorem history_table_shape {dir : HistoryDir} {L : List (List Char)}
    (hdir : dir ≠ [])
    (hglob : ∀ e ∈ dir, globMatchJson e.1 = true)
    (hparse : ∀ e ∈ dir, (dateOfPath (historyDir ++ e.1)).isSome)
    (hdist : dir.Pairwise fun e e' =>
      dateKeyOfPath (historyDir ++ e.1) ≠ dateKeyOfPath (historyDir ++ e'.1))
    (hL : L.Nodup) (hLne : L ≠ [])
    (hcountries : ∀ e ∈ dir, (e.2.map CountryRec.country).Perm L) :
    ∃ t, countries_history dir = .ok t ∧
      t.length = dir.length * L.length ∧
      t.Pairwise fun r s =>
        r.date.key < s.date.key ∨
          (r.date.key = s.date.key ∧ strLeB r.country s.country = true ∧
            r.country ≠ s.country) := by
  have hne : ∀ e ∈ dir, e.2 ≠ [] := by
    intro e he hnil
    have := (hcountries e he).length_eq
    rw [hnil] at this
    simp at this
    exact hLne (List.eq_nil_of_length_eq_zero this.symm)
  refine ⟨_, countries_history_ok hglob hparse hne hdir, ?_, ?_⟩
  · rw [(List.perm_insertionSort RowLe _).length_eq]
    exact presort_length hcountries
  · have hsorted : List.Pairwise RowLe
        (List.insertionSort RowLe ((dir.map rowsOfEntry).flatten)) :=
      List.sorted_insertionSort RowLe _
    have hkeys : (List.insertionSort RowLe ((dir.map rowsOfEntry).flatten)).Pairwise
        fun r s => rowKey r ≠ rowKey s :=
      ((List.perm_insertionSort RowLe _).pairwise_iff
        (fun h => (h ∘ Eq.symm))).mpr
        (presort_keys_distinct hL hcountries hdist hparse)
    refine (hsorted.and hkeys).imp ?_
    rintro r s ⟨hle, hkey⟩
    rcases hle with hlt | ⟨heq, hstr⟩
    · exact Or.inl hlt
    · refine Or.inr ⟨heq, hstr, ?_⟩
      intro hc
      exact hkey (by unfold rowKey; rw [heq, hc])

/-- Counterexample to C1 as stated: for the empty history store (N = 0,
any common country set) the claim predicts an aggregated table with 0 rows,
but the aggregation raises `pd.concat`'s "no objects to concatenate"
instead of producing any table. -/
theorem history_table_shape_counterexample :
    countries_history ([] : HistoryDir) = .error .noObjectsToConcatenate ∧
    ¬ ∃ t : List Row, countries_history ([] : HistoryDir) = .ok t := by
  refine ⟨rfl, ?_⟩
  rintro ⟨t, ht⟩
  rw [show countries_history ([] : HistoryDir) = .error .noObjectsToConcatenate from rfl] at ht
  cases ht

/-- Witness for the amended C1: two conventionally named snapshots of two
countries each. -/
theorem history_table_shape_witness :
    (([("2024-01-02_countries.json".toList,
          [⟨"US".toList, 10⟩, ⟨"DK".toList, 3⟩]),
        ("2024-01-01_countries.json".toList,
          [⟨"DK".toList, 2⟩, ⟨"US".toList, 9⟩])] : HistoryDir) ≠ []) ∧
    (∃ t, countries_history
        [("2024-01-02_countries.json".toList,
            [⟨"US".toList, 10⟩, ⟨"DK".toList, 3⟩]),
          ("2024-01-01_countries.json".toList,
            [⟨"DK".toList, 2⟩, ⟨"US".toList, 9⟩])] = .ok t ∧
      t.length = 2 * 2 ∧
      t.Pairwise fun r s =>
        r.date.key < s.date.key ∨
          (r.date.key = s.date.key ∧ strLeB r.country s.country = true ∧
            r.country ≠ s.country)) := by
  refine ⟨by decide, ?_⟩
  have h := @history_table_shape
    [("2024-01-02_countries.json".toList,
        [⟨"US".toList, 10⟩, ⟨"DK".toList, 3⟩]),
      ("2024-01-01_countries.json".toList,
        [⟨"DK".toList, 2⟩, ⟨"US".toList, 9⟩])]
    ["DK".toList, "US".toList]
    (by decide) (by decide) (by decide) (by decide) (by decide) (by decide) (by decide)
  simpa using h

/-- Modelled from the spec: the snapshot naming convention
`<YYYY-MM-DD>_countries.json` — an ISO date followed by the literal suffix
`_countries.json`.  The code itself has no such check; the definition
exists to compare the spec's convention with the `*.json` glob the code
uses. -/
def specSnapshotName (name : List Char) : Bool :=
  (parseIsoDate (name.take 10)).isSome && name.drop 10 == "_countries.json".toList

/-- C2 (amended): the history aggregator reads exactly the files in the
history directory matching the glob pattern `*.json` (any non-hidden name
ending in `.json`), not only those matching the stricter snapshot naming
convention `<YYYY-MM-DD>_countries.json`: a directory entry contributes to
the scanned file list if and only if the glob matches its name. -/
theorem scan_selects_exactly_glob_matches (dir : HistoryDir)
    (e : List Char × List CountryRec) :
    e ∈ json_fnames dir ↔
      ∃ nm, e.1 = historyDir ++ nm ∧ (nm, e.2) ∈ dir ∧ globMatchJson nm = true := by
  unfold json_fnames
  constructor
  · intro h
    obtain ⟨a, ha, hrw⟩ := List.mem_map.mp h
    obtain ⟨hadir, hmatch⟩ := List.mem_filter.mp ha
    refine ⟨a.1, ?_, ?_, hmatch⟩
    · rw [← hrw]
    · rw [← hrw]
      exact hadir
  · rintro ⟨nm, h1, h2, h3⟩
    refine List.mem_map.mpr ⟨(nm, e.2), List.mem_filter.mpr ⟨h2, h3⟩, ?_⟩
    cases e with
    | mk p c => simp_all

/-- Counterexample to C2 as stated: `2024-01-01_extra.json` does not match
the snapshot naming convention `<YYYY-MM-DD>_countries.json`, yet the
aggregator reads it and its row (country `ZZ`) appears in the aggregated
table. -/
theorem scan_convention_counterexample :
    specSnapshotName "2024-01-01_extra.json".toList = false ∧
    globMatchJson "2024-01-01_extra.json".toList = true ∧
    countries_history
        [("2024-01-01_countries.json".toList, [⟨"US".toList, 9⟩]),
         ("2024-01-01_extra.json".toList, [⟨"ZZ".toList, 5⟩])]
      = .ok [⟨"US".toList, 9, ⟨2024, 1, 1⟩⟩, ⟨"ZZ".toList, 5, ⟨2024, 1, 1⟩⟩] ∧
    (⟨"ZZ".toList, 5, ⟨2024, 1, 1⟩⟩ : Row)
      ∈ [(⟨"US".toList, 9, ⟨2024, 1, 1⟩⟩ : Row), ⟨"ZZ".toList, 5, ⟨2024, 1, 1⟩⟩] := by
  refine ⟨by decide, by decide, by rfl, by decide⟩

theorem mem_latestSlice {t : List Row} {r : Row} :
    r ∈ latestSlice t ↔ r ∈ t ∧ r.date.key = latest_date t := by
  simp [latestSlice, List.mem_filter]

theorem pairwise_take_drop {l : List Row} {n : Nat} (h : l.Pairwise CountGe) :
    ∀ x ∈ l.take n, ∀ y ∈ l.drop n, CountGe x y := by
  have h' := h
  rw [← List.take_append_drop n l] at h'
  exact fun x hx y hy => (List.pairwise_append.mp h').2.2 x hx y hy

/-- C6: for every history table whose latest-date slice contains at least
10 distinct countries, the top-10 selection has exactly 10 entries, each a
country present at the maximum date of the table (so a country absent at
the latest date is never selected, whatever its earlier history), and
every selected country's count at that date is ≥ every unselected
country's count at that date. -/
theorem top10_selects_highest_at_latest {t : List Row}
    (hnodup : ((latestSlice t).map Row.country).Nodup)
    (hlen : 10 ≤ (latestSlice t).length) :
    (top_10_countries t).length = 10 ∧
    (∀ c ∈ top_10_countries t, ∃ r ∈ t, r.date.key = latest_date t ∧ r.country = c) ∧
    (∀ r ∈ t, r.date.key = latest_date t → r.country ∉ top_10_countries t →
      ∀ s ∈ t, s.date.key = latest_date t → s.country ∈ top_10_countries t →
        r.location_count ≤ s.location_count) := by
  have hperm : (List.insertionSort CountGe (latestSlice t)).Perm (latestSlice t) :=
    List.perm_insertionSort CountGe _
  have hsorted : (List.insertionSort CountGe (latestSlice t)).Pairwise CountGe :=
    List.sorted_insertionSort CountGe _
  have hsortednodup : ((List.insertionSort CountGe (latestSlice t)).map Row.country).Nodup :=
    ((hperm.map Row.country).nodup_iff).mpr hnodup
  have htop : top_10_countries t
      = ((List.insertionSort CountGe (latestSlice t)).take 10).map Row.country := rfl
  refine ⟨?_, ?_, ?_⟩
  · rw [htop, List.length_map, List.length_take, hperm.length_eq]
    omega
  · intro c hc
    rw [htop] at hc
    obtain ⟨u, hu, hrw⟩ := List.mem_map.mp hc
    have humem := hperm.mem_iff.mp (List.take_subset _ _ hu)
    exact ⟨u, (mem_latestSlice.mp humem).1, (mem_latestSlice.mp humem).2, hrw⟩
  · intro r hrt hrd hrnot s hst hsd hsel
    rw [htop] at hrnot hsel
    have hrmem : r ∈ List.insertionSort CountGe (latestSlice t) :=
      hperm.mem_iff.mpr (mem_latestSlice.mpr ⟨hrt, hrd⟩)
    have hsmem : s ∈ List.insertionSort CountGe (latestSlice t) :=
      hperm.mem_iff.mpr (mem_latestSlice.mpr ⟨hst, hsd⟩)
    have hrdrop : r ∈ (List.insertionSort CountGe (latestSlice t)).drop 10 := by
      have hsplit : r ∈ (List.insertionSort CountGe (latestSlice t)).take 10
          ++ (List.insertionSort CountGe (latestSlice t)).drop 10 := by
        rw [List.take_append_drop]
        exact hrmem
      rcases List.mem_append.mp hsplit with hin | hin
      · exact absurd (List.mem_map.mpr ⟨r, hin, rfl⟩) hrnot
      · exact hin
    have hstake : s ∈ (List.insertionSort CountGe (latestSlice t)).take 10 := by
      obtain ⟨u, hu, hrw⟩ := List.mem_map.mp hsel
      have hus : u = s :=
        List.inj_on_of_nodup_map hsortednodup (List.take_subset _ _ hu) hsmem hrw
      exact hus ▸ hu
    exact pairwise_take_drop hsorted s hstake r hrdrop

/-- Witness for C6: a table with 11 countries at the latest date and one
country (`L0`) present only at an earlier date. -/
theorem top10_selects_highest_at_latest_witness :
    (((latestSlice
        ((⟨"L0".toList, 99, ⟨2024, 1, 1⟩⟩ : Row) ::
          (List.range 11).map fun i =>
            (⟨['C', Char.ofNat (65 + i)], 100 - i, ⟨2024, 1, 2⟩⟩ : Row))).map
        Row.country).Nodup) ∧
    (10 ≤ (latestSlice
        ((⟨"L0".toList, 99, ⟨2024, 1, 1⟩⟩ : Row) ::
          (List.range 11).map fun i =>
            (⟨['C', Char.ofNat (65 + i)], 100 - i, ⟨2024, 1, 2⟩⟩ : Row))).length) ∧
    (top_10_countries
        ((⟨"L0".toList, 99, ⟨2024, 1, 1⟩⟩ : Row) ::
          (List.range 11).map fun i =>
            (⟨['C', Char.ofNat (65 + i)], 100 - i, ⟨2024, 1, 2⟩⟩ : Row))).length = 10 := by
  refine ⟨by decide, by decide, ?_⟩
  exact (top10_selects_highest_at_latest (by decide) (by decide)).1

/-- C10: if the latest-date slice has k distinct countries with k < 10,
the selection is exactly those k countries — `head(10)` of a shorter
sorted slice returns all of its rows, and nothing fails. -/
theorem top10_short_slice {t : List Row}
    ( _hnodup : ((latestSlice t).map Row.country).Nodup)
    (hlen : (latestSlice t).length < 10) :
    (top_10_countries t).length = (latestSlice t).length ∧
    ∀ c, (c ∈ top_10_countries t ↔ c ∈ (latestSlice t).map Row.country) := by
  have hperm : (List.insertionSort CountGe (latestSlice t)).Perm (latestSlice t) :=
    List.perm_insertionSort CountGe _
  have htake : (List.insertionSort CountGe (latestSlice t)).take 10
      = List.insertionSort CountGe (latestSlice t) :=
    List.take_of_length_le (by rw [hperm.length_eq]; omega)
  constructor
  · unfold top_10_countries
    rw [htake, List.length_map, hperm.length_eq]
  · intro c
    unfold top_10_countries
    rw [htake]
    exact (hperm.map Row.country).mem_iff

/-- Witness for C10: three countries at the latest date. -/
theorem top10_short_slice_witness :
    (((latestSlice
        [(⟨"SE".toList, 7, ⟨2024, 1, 2⟩⟩ : Row), ⟨"DK".toList, 2, ⟨2024, 1, 2⟩⟩,
          ⟨"US".toList, 9, ⟨2024, 1, 2⟩⟩, ⟨"NO".toList, 4, ⟨2024, 1, 1⟩⟩]).map
        Row.country).Nodup) ∧
    ((latestSlice
        [(⟨"SE".toList, 7, ⟨2024, 1, 2⟩⟩ : Row), ⟨"DK".toList, 2, ⟨2024, 1, 2⟩⟩,
          ⟨"US".toList, 9, ⟨2024, 1, 2⟩⟩, ⟨"NO".toList, 4, ⟨2024, 1, 1⟩⟩]).length < 10) ∧
    (top_10_countries
        [(⟨"SE".toList, 7, ⟨2024, 1, 2⟩⟩ : Row), ⟨"DK".toList, 2, ⟨2024, 1, 2⟩⟩,
          ⟨"US".toList, 9, ⟨2024, 1, 2⟩⟩, ⟨"NO".toList, 4, ⟨2024, 1, 1⟩⟩]).length = 3 := by
  refine ⟨by decide, by decide, ?_⟩
  have h := @top10_short_slice
    [(⟨"SE".toList, 7, ⟨2024, 1, 2⟩⟩ : Row), ⟨"DK".toList, 2, ⟨2024, 1, 2⟩⟩,
      ⟨"US".toList, 9, ⟨2024, 1, 2⟩⟩, ⟨"NO".toList, 4, ⟨2024, 1, 1⟩⟩]
    (by decide) (by decide)
  rw [h.1]
  decide

/-- One rendered object field at nesting depth `d`. -/
def renderField (d : Nat) (kv : List Char × Json) : List Char :=
  indentSp ((d + 1) * 4) ++ '"' :: kv.1 ++ '"' :: ':' :: ' ' :: json_dump_at (d + 1) kv.2

theorem json_dump_at_obj (d : Nat) (f : List Char × Json)
    (fs : List (List Char × Json)) :
    json_dump_at d (.obj (f :: fs)) =
      '\x7b' :: '\n' ::
        joinSep (',' :: '\n' :: [])
          ((sortFieldsByKey (f :: fs)).map (renderField d)) ++
        '\n' :: indentSp (d * 4) ++ ['\x7d'] := by
  simp only [json_dump_at]
  rw [← List.attach_map_val (sortFieldsByKey (f :: fs)) (renderField d)]
  rfl

theorem sortFieldsByKey_idem (fs : List (List Char × Json)) :
    sortFieldsByKey (sortFieldsByKey fs) = sortFieldsByKey fs :=
  List.Sorted.insertionSort_eq (List.sorted_insertionSort FieldLe fs)

/-- C8: serializing a snapshot payload to the canonical file is
deterministic: the same value always produces the same bytes, the output
does not depend on the order object keys arrive in (they are emitted in
ascending lexicographic order, `sort_keys=True`), and the emitted field
order is sorted by key.  The 4-space indentation is fixed in
`json_dump_at`, mirroring `indent = 4` at the call site. -/
theorem canonical_write_deterministic (v : Json)
    (fs : List (List Char × Json)) :
    json_dump v = json_dump v ∧
    json_dump (.obj fs) = json_dump (.obj (sortFieldsByKey fs)) ∧
    (sortFieldsByKey fs).Pairwise FieldLe := by
  refine ⟨rfl, ?_, List.sorted_insertionSort FieldLe fs⟩
  cases fs with
  | nil => rfl
  | cons f fs' =>
    obtain ⟨g, gs, hg⟩ : ∃ g gs, sortFieldsByKey (f :: fs') = g :: gs := by
      cases hs : sortFieldsByKey (f :: fs') with
      | nil =>
        have hlen := (List.perm_insertionSort FieldLe (f :: fs')).length_eq
        unfold sortFieldsByKey at hs
        rw [hs] at hlen
        simp at hlen
      | cons g gs => exact ⟨g, gs, rfl⟩
    unfold json_dump
    rw [json_dump_at_obj 0 f fs', hg, json_dump_at_obj 0 g gs, ← hg,
      sortFieldsByKey_idem]

theorem digitChar_ne_dot (n : Nat) (h : n < 10) : Nat.digitChar n ≠ '.' := by
  have hall : ∀ m, m < 10 → Nat.digitChar m ≠ '.' := by decide
  exact hall n h

theorem suffix_json_todaysBasename (today : Date) :
    List.isSuffixOf (".json".toList) (todaysBasename today) = true := by
  rw [List.isSuffixOf_iff_suffix]
  unfold todaysBasename
  have h1 : (".json".toList) <:+ "countries.json".toList := by decide
  have h2 : "countries.json".toList <:+ '_' :: "countries.json".toList :=
    List.suffix_cons _ _
  exact h1.trans (h2.trans (List.suffix_append _ _))

theorem globMatch_todaysBasename (today : Date) :
    globMatchJson (todaysBasename today) = true := by
  obtain ⟨rest, hrest⟩ : ∃ rest, todaysBasename today
      = Nat.digitChar (today.year / 1000 % 10) :: rest := ⟨_, rfl⟩
  rw [hrest, globMatchJson, Bool.and_eq_true]
  constructor
  · rw [decide_eq_true_eq]
    exact digitChar_ne_dot _ (Nat.mod_lt _ (by norm_num))
  · rw [← hrest]
    exact suffix_json_todaysBasename today

theorem upsertFile_mem (dir : HistoryDir) (nm : List Char)
    (content : List CountryRec) :
    (nm, content) ∈ upsertFile dir nm content := by
  unfold upsertFile
  split
  · next h =>
    obtain ⟨e, he, heq⟩ := List.any_eq_true.mp h
    refine List.mem_map.mpr ⟨e, he, ?_⟩
    rw [if_pos heq]
  · exact List.mem_append.mpr (Or.inr (List.mem_singleton.mpr rfl))

theorem runScript_success_history (resp : HttpResponse) (today : Date) (fs : FS)
    (payload : List CountryRec)
    (hstatus : resp.status_code = 200) (hbody : resp.body = some payload) :
    (runScript (some resp) today fs).1.jsonHistory
      = upsertFile fs.jsonHistory (todaysBasename today) payload := by
  simp only [runScript]
  have h200 : ¬ resp.status_code ≠ 200 := by simp [hstatus]
  rw [if_neg h200, hbody]
  cases hc : countries_history_csv
      (upsertFile fs.jsonHistory (todaysBasename today) payload) with
  | error e => simp only [hc]
  | ok csv => simp only [hc]

/-- C9: within a single complete run, the no-history failure branch is
unreachable: after a successful fetch the writer has placed today's
snapshot into the history directory before the aggregator scans it, so the
scan finds at least that file and the concatenation never fails for lack
of input. -/
theorem snapshot_precedes_scan (resp : HttpResponse) (today : Date) (fs : FS)
    (payload : List CountryRec)
    (hstatus : resp.status_code = 200) (hbody : resp.body = some payload) :
    (historyDir ++ todaysBasename today, payload)
        ∈ json_fnames (runScript (some resp) today fs).1.jsonHistory ∧
    json_fnames (runScript (some resp) today fs).1.jsonHistory ≠ [] ∧
    countries_history (runScript (some resp) today fs).1.jsonHistory
      ≠ .error .noObjectsToConcatenate := by
  rw [runScript_success_history resp today fs payload hstatus hbody]
  have hmem : (todaysBasename today, payload)
      ∈ upsertFile fs.jsonHistory (todaysBasename today) payload :=
    upsertFile_mem _ _ _
  have hmem' : (historyDir ++ todaysBasename today, payload)
      ∈ json_fnames (upsertFile fs.jsonHistory (todaysBasename today) payload) :=
    List.mem_map.mpr ⟨(todaysBasename today, payload),
      List.mem_filter.mpr ⟨hmem, globMatch_todaysBasename today⟩, rfl⟩
  exact ⟨hmem', List.ne_nil_of_mem hmem',
    countries_history_not_emptyErr (List.ne_nil_of_mem hmem')⟩

/-- Witness for C9 at a successful fetch of one record into an empty
filesystem. -/
theorem snapshot_precedes_scan_witness :
    ((200 : Nat) = 200) ∧
    json_fnames (runScript (some ⟨200, some [⟨"US".toList, 10⟩]⟩)
        ⟨2024, 3, 7⟩ ⟨none, [], none⟩).1.jsonHistory ≠ [] :=
  ⟨rfl, (snapshot_precedes_scan ⟨200, some [⟨"US".toList, 10⟩]⟩ ⟨2024, 3, 7⟩
      ⟨none, [], none⟩ [⟨"US".toList, 10⟩] rfl rfl).2.1⟩
